import Mathlib

/-!
# BoulderLabeler: a verification development for `src/main.cpp`

The program lets a user drag rectangles over an image with five "brushes"
and, on save, rasterises every non-empty brush into a binary mask file.

The embedding follows `src/main.cpp` function by function:

* `Config`, `Brush`, `Rect`, `Mat` are the data the code keeps;
* `mouseHandler`, `draw_bounding_boxes`, `create_mask`, `create_masks`,
  `label_problems` and `main` are the functions of the same names.

Conventions of the embedding.

* C++ `int` values (mouse coordinates, rectangle fields, key codes) are
  modelled in `Int`.  Mouse coordinates are window coordinates, far from the
  limits of a 32-bit `int`, and signed overflow has no defined behaviour to
  model.
* OpenCV is a library, not part of the repository.  The few primitives used
  are modelled after the library's documented behaviour: `cv::Rect()` is the
  zero rectangle, `Mat::zeros` gives an all-zero matrix, `Mat::operator()(Rect)`
  checks that the region lies inside the matrix and raises `cv::Exception`
  otherwise, and assigning a scalar to a region sets every pixel of it.
* Effects on the outside world (`imshow`, `imwrite`) are recorded, in order,
  in a list of `Effect`s.  Console output (`std::cout`) is not recorded.
* A raised `cv::Exception` is `none` in `Option`-valued functions and the
  status `thrown` in the session loop.
-/

namespace BoulderLabeler

/-! ## Data model -/

/-- The enumerator `NUM_BRUSHES` of `enum Brush`. -/
abbrev NUM_BRUSHES : Nat := 5

/-- The type `enum Brush`: the values `ONE = 0`, ..., `FIVE = 4`. -/
abbrev Brush : Type := Fin NUM_BRUSHES

/-- Enumerator `ONE = 0`. -/
def ONE : Brush := 0
/-- Enumerator `TWO`. -/
def TWO : Brush := 1
/-- Enumerator `THREE`. -/
def THREE : Brush := 2
/-- Enumerator `FOUR`. -/
def FOUR : Brush := 3
/-- Enumerator `FIVE`. -/
def FIVE : Brush := 4

/-- The type `cv::Rect`: top-left corner and size, all `int`. -/
structure Rect where
  x : Int
  y : Int
  width : Int
  height : Int
deriving DecidableEq, Repr

/-- The default constructor `cv::Rect()`: all four fields are zero. -/
def Rect.zero : Rect := ⟨0, 0, 0, 0⟩

/-- Pixel `(px, py)` lies in the rectangle: `x ≤ px < x + width` and
`y ≤ py < y + height` (`cv::Rect::contains`). -/
def Rect.contains (r : Rect) (px py : Nat) : Prop :=
  r.x ≤ px ∧ (px : Int) < r.x + r.width ∧ r.y ≤ py ∧ (py : Int) < r.y + r.height

instance (r : Rect) (px py : Nat) : Decidable (r.contains px py) := by
  unfold Rect.contains; infer_instance

/-- The type `cv::Mat`, as far as the program uses it: a matrix of `rows` rows
and `cols` columns, stored as a list of rows.  `α` is the pixel type (a colour
triple for the loaded image, a number in `0..255` for a `CV_8U` mask). -/
structure Mat (α : Type) where
  rows : Nat
  cols : Nat
  data : List (List α)
deriving DecidableEq, Repr

/-- The call `Mat::zeros(rows, cols, CV_8U)`. -/
def Mat.zeros (rows cols : Nat) : Mat Nat :=
  ⟨rows, cols, List.replicate rows (List.replicate cols 0)⟩

/-- The call `m.at<uchar>(py, px)`: the pixel in row `py`, column `px`,
`none` outside the matrix. -/
def Mat.at {α : Type} (m : Mat α) (py px : Nat) : Option α :=
  (m.data[py]?).bind (fun row => row[px]?)

/-- The test `!m.data`: the matrix holds no pixel data (what `imread` returns
for a file it cannot read). -/
def Mat.empty {α : Type} (m : Mat α) : Bool := m.data.isEmpty

/-- The range check of `Mat::operator()(const Rect&)`:
`0 <= roi.x && 0 <= roi.width && roi.x + roi.width <= m.cols &&
 0 <= roi.y && 0 <= roi.height && roi.y + roi.height <= m.rows`. -/
def Mat.roiValid {α : Type} (m : Mat α) (roi : Rect) : Prop :=
  0 ≤ roi.x ∧ 0 ≤ roi.width ∧ roi.x + roi.width ≤ m.cols ∧
  0 ≤ roi.y ∧ 0 ≤ roi.height ∧ roi.y + roi.height ≤ m.rows

instance {α : Type} (m : Mat α) (roi : Rect) : Decidable (m.roiValid roi) := by
  unfold Mat.roiValid; infer_instance

/-- The statement `m(roi) = v`: when `roi` passes the range check every pixel
of the region becomes `v` and all other pixels keep their value; when it does
not, the library raises an exception (`none`). -/
def Mat.setRoi (m : Mat Nat) (roi : Rect) (v : Nat) : Option (Mat Nat) :=
  if m.roiValid roi then
    some { m with
      data := m.data.mapIdx fun py row =>
        row.mapIdx fun px old => if roi.contains px py then v else old }
  else
    none

/-- The type `cv::Scalar`: four channel values. -/
abbrev Scalar : Type := Nat × Nat × Nat × Nat

def RED : Scalar := (0, 0, 255, 255)
def GREEN : Scalar := (0, 255, 0, 255)
def BLUE : Scalar := (255, 0, 0, 255)
def YELLOW : Scalar := (0, 255, 255, 255)
def PURPLE : Scalar := (255, 0, 255, 255)

/-- The global table `BRUSH_COLOURS`. -/
def BRUSH_COLOURS (i : Brush) : Scalar :=
  [RED, GREEN, BLUE, YELLOW, PURPLE].getD i.val RED

/-- The global `window_name`. -/
def window_name : String := "editor"

/-- One call `rectangle(copy, rect, colour, thickness)`: an outline drawn on
the displayed copy. -/
structure Stroke where
  rect : Rect
  colour : Scalar
  thickness : Nat
deriving DecidableEq, Repr

/-- What the program does to the outside world, in the order it does it. -/
inductive Effect (α : Type) where
  /-- The call `imshow(window, image)` of `base` with `strokes` drawn on it. -/
  | imshow (window : String) (base : Mat α) (strokes : List Stroke)
  /-- The call `imwrite(path, mask)`. -/
  | imwrite (path : String) (mask : Mat Nat)
deriving DecidableEq, Repr

/-- The type `struct Config`. -/
structure Config (α : Type) where
  image : Mat α
  masks : List (Mat Nat)
  bounding_box : Rect
  brush : Brush
  bounding_boxes : Brush → List Rect

/-- The method `Config::get_current_bb`. -/
def Config.get_current_bb {α : Type} (conf : Config α) : List Rect :=
  conf.bounding_boxes conf.brush

/-- Assignment through the reference `get_current_bb()` returns: the active
brush's sequence is replaced, the other sequences are untouched. -/
def Config.set_current_bb {α : Type} (conf : Config α) (bbs : List Rect) : Config α :=
  { conf with bounding_boxes := Function.update conf.bounding_boxes conf.brush bbs }

/-! ## `create_mask`, `create_masks`, `draw_bounding_boxes` -/

/-- The function `create_mask` (lines 202-211): a zero mask of the image's
size, then `mask(rect) = 255` for every rectangle in order. -/
def create_mask {α : Type} (image : Mat α) (bounding_boxes : List Rect) : Option (Mat Nat) :=
  bounding_boxes.foldlM (fun mask rect => mask.setRoi rect 255)
    (Mat.zeros image.rows image.cols)

/-- The function `create_masks` (lines 213-224): for `i = 0 .. NUM_BRUSHES-1`,
when `bounding_boxes[i].size()` is non-zero the mask of brush `i` is appended
to `out`. -/
def create_masks {α : Type} (image : Mat α) (bounding_boxes : Brush → List Rect) :
    Option (List (Mat Nat)) :=
  (List.finRange NUM_BRUSHES).foldlM
    (fun out i =>
      if (bounding_boxes i).length ≠ 0 then
        (create_mask image (bounding_boxes i)).bind fun mask => some (out ++ [mask])
      else
        some out)
    []

/-- The function `draw_bounding_boxes` (lines 188-200): every rectangle of
every brush, brush-ascending then insertion order, drawn with the brush's
colour and thickness 3 on a copy of the image, which is then shown. -/
def draw_bounding_boxes {α : Type} (image : Mat α) (bounding_boxes : Brush → List Rect) :
    Effect α :=
  Effect.imshow window_name image
    ((List.finRange NUM_BRUSHES).flatMap fun i =>
      (bounding_boxes i).map fun rect => ⟨rect, BRUSH_COLOURS i, 3⟩)

/-! ## `mouseHandler` -/

/-- OpenCV's `EVENT_LBUTTONDOWN`. -/
def EVENT_LBUTTONDOWN : Int := 1
/-- OpenCV's `EVENT_LBUTTONUP`. -/
def EVENT_LBUTTONUP : Int := 4

/-- The function `mouseHandler` (lines 161-186).  The result is the new
`Config` and the effects of the call. -/
def mouseHandler {α : Type} (event x y : Int) (conf : Config α) :
    Config α × List (Effect α) :=
  if event = EVENT_LBUTTONDOWN then
    ({ conf with bounding_box := { conf.bounding_box with x := x, y := y } }, [])
  else if event = EVENT_LBUTTONUP then
    let width := x - conf.bounding_box.x
    let height := y - conf.bounding_box.y
    if width ≤ 0 ∨ height ≤ 0 then
      (conf, [])
    else
      let conf1 : Config α :=
        { conf with bounding_box := { conf.bounding_box with width := width, height := height } }
      let conf2 := conf1.set_current_bb (conf1.get_current_bb ++ [conf1.bounding_box])
      (conf2, [draw_bounding_boxes conf2.image conf2.bounding_boxes])
  else
    (conf, [])

/-! ## `label_problems` -/

/-- The `int` value of a character literal such as `'q'`. -/
def chr (c : Char) : Int := (c.toNat : Int)

/-- The cast `Brush(n)` for `n = key - '1'`. -/
def Brush.ofInt (n : Int) : Brush := Fin.ofNat n.toNat

/-- How one pass through the `switch` of `label_problems` ends. -/
inductive Step (α : Type) where
  /-- A `break`: the loop goes on with the new state. -/
  | next (conf : Config α) (effects : List (Effect α))
  /-- A `return code`. -/
  | ret (code : Int) (conf : Config α) (effects : List (Effect α))
  /-- A `cv::Exception` left the function. -/
  | raise (conf : Config α) (effects : List (Effect α))

/-- The state a pass through the `switch` leaves. -/
def Step.conf {α : Type} : Step α → Config α
  | Step.next conf _ => conf
  | Step.ret _ conf _ => conf
  | Step.raise conf _ => conf

/-- The file name `imwrite` is given for mask number `i` (line 140). -/
def output_name (output_dir fname : String) (i : Nat) : String :=
  output_dir ++ "/" ++ fname ++ "_output" ++ toString i ++ ".jpg"

/-- The body of the `switch (key)` of `label_problems` (lines 121-155). -/
def key_switch {α : Type} (fname output_dir : String) (key : Int) (conf : Config α) :
    Step α :=
  if key = chr 'q' then
    Step.ret 0 conf []
  else if key = chr 'u' then
    if conf.get_current_bb.length ≠ 0 then
      let conf1 := conf.set_current_bb conf.get_current_bb.dropLast
      Step.next conf1 [draw_bounding_boxes conf1.image conf1.bounding_boxes]
    else
      Step.next conf []
  else if key = chr 's' then
    match create_masks conf.image conf.bounding_boxes with
    | none => Step.raise conf []
    | some masks =>
      Step.ret 0 { conf with masks := masks }
        (masks.enum.map fun im => Effect.imwrite (output_name output_dir fname im.1) im.2)
  else if key = chr '1' ∨ key = chr '2' ∨ key = chr '3' ∨ key = chr '4' ∨ key = chr '5' then
    Step.next { conf with brush := Brush.ofInt (key - chr '1') } []
  else
    Step.next conf []

/-- What the window system delivers while `waitKey(0)` blocks: a mouse
callback or a key press. -/
inductive Event where
  | mouse (event x y : Int)
  | key (key : Int)
deriving DecidableEq, Repr

/-- Where a session stands. -/
inductive Status where
  /-- Blocked in `waitKey(0)`: all events so far are handled. -/
  | waiting
  /-- The function `label_problems` returned `code`. -/
  | returned (code : Int)
  /-- A `cv::Exception` left `label_problems`. -/
  | thrown
deriving DecidableEq, Repr

/-- A session: its state, the effects so far and its status. -/
structure Session (α : Type) where
  conf : Config α
  effects : List (Effect α)
  status : Status

/-- The loop `while (1) { int key = waitKey(0); switch (key) ... }` (lines
118-156) fed with the events the window system delivers. -/
def session_loop {α : Type} (fname output_dir : String) :
    Config α → List (Effect α) → List Event → Session α
  | conf, effects, [] => ⟨conf, effects, Status.waiting⟩
  | conf, effects, Event.mouse event x y :: rest =>
    session_loop fname output_dir (mouseHandler event x y conf).1
      (effects ++ (mouseHandler event x y conf).2) rest
  | conf, effects, Event.key key :: rest =>
    match key_switch fname output_dir key conf with
    | Step.next conf1 out => session_loop fname output_dir conf1 (effects ++ out) rest
    | Step.ret code conf1 out => ⟨conf1, effects ++ out, Status.returned code⟩
    | Step.raise conf1 out => ⟨conf1, effects ++ out, Status.thrown⟩

/-- The part of a path after its last `/` (`std::filesystem::path::filename`
on a POSIX system). -/
def filename (path : List Char) : List Char :=
  (path.reverse.takeWhile (· ≠ '/')).reverse

/-- The call `std::filesystem::path(file_name).stem()`: the file name up to its
last period; the whole file name when it is `.` or `..`, has no period, or its
only period is the first character. -/
def stem (file_name : String) : String :=
  let f := filename file_name.toList
  if f = ['.'] ∨ f = ['.', '.'] ∨ ¬ '.' ∈ f then
    String.mk f
  else
    let front := ((f.reverse.dropWhile (· ≠ '.')).drop 1).reverse
    if front = [] then String.mk f else String.mk front

/-- The state `label_problems` starts from (lines 103-106): `Config config;`
default-constructs every member, then `brush = ONE` and the image is loaded. -/
def initial_config {α : Type} (image : Mat α) : Config α :=
  { image := image, masks := [], bounding_box := Rect.zero, brush := ONE,
    bounding_boxes := fun _ => [] }

/-- The function `label_problems` (lines 99-159).  `imread` stands for the
file system: the image a path decodes to, empty when it cannot be read. -/
def label_problems {α : Type} (imread : String → Mat α) (file_name output_dir : String)
    (events : List Event) : Session α :=
  let fname := stem file_name
  let conf := initial_config (imread file_name)
  if conf.image.empty then
    ⟨conf, [], Status.returned (-1)⟩
  else
    session_loop fname output_dir conf [Effect.imshow window_name conf.image []] events

/-! ## `main` -/

/-- How `main` ends. -/
inductive MainResult where
  /-- Fewer than two arguments: the error line and `return -1`. -/
  | usage_error
  /-- The help text and `return 0`. -/
  | help
  /-- The read `argv[index]` with `index >= argc`: `argv[argc]` is a null
  pointer and `std::string` is constructed from it. -/
  | read_past_end (index : Nat)
  /-- The loop over `file_names`: `label_problems(file_name, output_dir)` for
  every file in order, then `return 0`. -/
  | labelled (output_dir : String) (file_names : List String)
deriving DecidableEq, Repr

/-- The loop `for (int i = 1; i < argc; ++i)` of `main` (lines 80-90).  `rest`
is `argv[i], ..., argv[argc-1]`. -/
def arg_loop : (i : Nat) → (rest : List String) → (output_dir : String) →
    (file_names : List String) → MainResult
  | _, [], output_dir, file_names => MainResult.labelled output_dir file_names
  | i, arg :: rest, output_dir, file_names =>
    if arg = "-h" ∨ arg = "--help" then
      MainResult.help
    else if arg = "-o" ∨ arg = "-output" then
      match rest with
      | [] => MainResult.read_past_end (i + 1)
      | value :: rest1 => arg_loop (i + 2) rest1 value file_names
    else
      arg_loop (i + 1) rest output_dir (file_names ++ [arg])

/-- The function `main` (lines 50-97); `argv` is the argument vector, so
`argc = argv.length`. -/
def main (argv : List String) : MainResult :=
  if argv.length < 2 then
    MainResult.usage_error
  else
    arg_loop 1 (argv.drop 1) "." []

/-! ## Predicates and data used in the statements -/

/-- The brushes whose sequence is non-empty, in ascending brush order. -/
def nonempty_brushes (bounding_boxes : Brush → List Rect) : List Brush :=
  (List.finRange NUM_BRUSHES).filter fun i => decide (bounding_boxes i ≠ [])

/-- The files a list of effects writes: path and content of every `imwrite`,
in order. -/
def written_files {α : Type} (effects : List (Effect α)) : List (String × Mat Nat) :=
  effects.filterMap fun e =>
    match e with
    | Effect.imwrite path mask => some (path, mask)
    | Effect.imshow _ _ _ => none

/-- The number of redraws (`imshow` calls) in a list of effects. -/
def redraws {α : Type} (effects : List (Effect α)) : Nat :=
  (effects.filter fun e =>
    match e with
    | Effect.imshow _ _ _ => true
    | Effect.imwrite _ _ => false).length

/-- The coordinates of a left-button press or release lie within an image of
`rows` rows and `cols` columns: `0 ≤ x ≤ cols` and `0 ≤ y ≤ rows`.  Other
events carry no condition. -/
def Event.within (rows cols : Nat) : Event → Prop
  | Event.mouse event x y =>
    (event = EVENT_LBUTTONDOWN ∨ event = EVENT_LBUTTONUP) →
      0 ≤ x ∧ x ≤ cols ∧ 0 ≤ y ∧ y ≤ rows
  | Event.key _ => True

instance (rows cols : Nat) (e : Event) : Decidable (e.within rows cols) := by
  cases e <;> unfold Event.within <;> infer_instance

/-- A left-button press at `(x, y)`. -/
def press (x y : Int) : Event := Event.mouse EVENT_LBUTTONDOWN x y

/-- A left-button release at `(x, y)`. -/
def release (x y : Int) : Event := Event.mouse EVENT_LBUTTONUP x y

/-- A `rows × cols` image of zero pixels. -/
def zero_image (rows cols : Nat) : Mat Nat := Mat.zeros rows cols

/-- A file system in which every path decodes to the 4 × 4 zero image. -/
def imread4 : String → Mat Nat := fun _ => zero_image 4 4

/-- A store with rectangles A and B on brush `ONE` and C on brush `THREE`, as
left by a session on a 4 × 4 image. -/
def photo_config : Config Nat :=
  { image := zero_image 4 4, masks := [], bounding_box := ⟨2, 2, 2, 2⟩, brush := THREE,
    bounding_boxes := fun b =>
      if b = ONE then [⟨0, 0, 1, 1⟩, ⟨1, 0, 2, 1⟩] else if b = THREE then [⟨2, 2, 2, 2⟩] else [] }

/-! ## Lemmas on masks -/

theorem Mat.at_zeros (rows cols py px : Nat) (hy : py < rows) (hx : px < cols) :
    (Mat.zeros rows cols).at py px = some 0 := by
  simp [Mat.at, Mat.zeros, List.getElem?_replicate, hy, hx]

theorem Mat.setRoi_eq_some {m : Mat Nat} {roi : Rect} {v : Nat} (h : m.roiValid roi) :
    m.setRoi roi v = some { m with
      data := m.data.mapIdx fun py row =>
        row.mapIdx fun px old => if roi.contains px py then v else old } := by
  simp [Mat.setRoi, h]

theorem Mat.setRoi_eq_none {m : Mat Nat} {roi : Rect} {v : Nat} (h : ¬ m.roiValid roi) :
    m.setRoi roi v = none := by
  simp [Mat.setRoi, h]

theorem Mat.setRoi_at {m m1 : Mat Nat} {roi : Rect} {v : Nat}
    (h : m.setRoi roi v = some m1) (py px : Nat) :
    m1.at py px = (m.at py px).map fun old => if roi.contains px py then v else old := by
  unfold Mat.setRoi at h
  split at h
  · injection h with h
    subst h
    simp only [Mat.at, List.getElem?_mapIdx]
    cases m.data[py]? with
    | none => rfl
    | some row =>
      simp only [Option.map_some', Option.some_bind, List.getElem?_mapIdx]
  · exact absurd h (by simp)

theorem Mat.setRoi_shape {m m1 : Mat Nat} {roi : Rect} {v : Nat}
    (h : m.setRoi roi v = some m1) :
    m1.rows = m.rows ∧ m1.cols = m.cols ∧ m1.data.length = m.data.length ∧
    ((∀ row ∈ m.data, row.length = m.cols) → ∀ row ∈ m1.data, row.length = m1.cols) := by
  unfold Mat.setRoi at h
  split at h
  · injection h with h
    subst h
    refine ⟨rfl, rfl, by simp, ?_⟩
    intro hrow row hmem
    obtain ⟨i, hi, rfl⟩ := List.getElem_of_mem hmem
    simp only [List.getElem_mapIdx, List.length_mapIdx]
    exact hrow _ (List.getElem_mem _)
  · exact absurd h (by simp)

/-- The loop of `create_mask` from any mask `m0`: when every rectangle passes
the range check, the loop ends with a mask of the same shape in which a pixel
is 255 when some rectangle covers it and keeps its old value otherwise. -/
theorem fill_loop (bbs : List Rect) (m0 : Mat Nat)
    (h : ∀ r ∈ bbs, m0.roiValid r) :
    ∃ m, bbs.foldlM (fun mask rect => mask.setRoi rect 255) m0 = some m ∧
      m.rows = m0.rows ∧ m.cols = m0.cols ∧ m.data.length = m0.data.length ∧
      ((∀ row ∈ m0.data, row.length = m0.cols) → ∀ row ∈ m.data, row.length = m.cols) ∧
      ∀ py px, m.at py px =
        (m0.at py px).map fun old => if ∃ r ∈ bbs, r.contains px py then 255 else old := by
  induction bbs generalizing m0 with
  | nil =>
    refine ⟨m0, rfl, rfl, rfl, rfl, fun h => h, ?_⟩
    intro py px
    cases m0.at py px <;> simp
  | cons r rest ih =>
    have hr : m0.roiValid r := h r (List.mem_cons_self _ _)
    have hstep : m0.setRoi r 255 = _ := Mat.setRoi_eq_some hr
    obtain ⟨hrows, hcols, hlen, hrowlen⟩ := Mat.setRoi_shape hstep
    have hat := Mat.setRoi_at hstep
    generalize hm1 : ({ m0 with
      data := m0.data.mapIdx fun py row =>
        row.mapIdx fun px old => if r.contains px py then 255 else old } : Mat Nat) = m1 at *
    have hvalid : ∀ q ∈ rest, m1.roiValid q := by
      intro q hq
      have := h q (List.mem_cons_of_mem _ hq)
      unfold Mat.roiValid at this ⊢
      rw [hrows, hcols]
      exact this
    obtain ⟨m, hm, h1, h2, h3, h4, h5⟩ := ih m1 hvalid
    refine ⟨m, ?_, h1.trans hrows, h2.trans hcols, h3.trans hlen, fun hw => h4 (hrowlen hw), ?_⟩
    · simp only [List.foldlM_cons, hstep]
      exact hm
    · intro py px
      rw [h5 py px, hat py px]
      cases m0.at py px with
      | none => rfl
      | some old =>
        simp only [Option.map_some', List.mem_cons, exists_eq_or_imp]
        by_cases hc : r.contains px py
        · simp [hc]
        · simp [hc]

/-! ## C1: `create_mask` -/

/-- C1. For every image and every list of rectangles that each lie inside the
image with positive size, `create_mask` returns a mask of the image's size
(single channel, one number per pixel) in which pixel `(px, py)` is 255 if some
rectangle of the list covers it and 0 otherwise. -/
theorem create_mask_spec {α : Type} (image : Mat α) (bounding_boxes : List Rect)
    (h : ∀ r ∈ bounding_boxes, 0 ≤ r.x ∧ 0 ≤ r.y ∧ r.x + r.width ≤ image.cols ∧
      r.y + r.height ≤ image.rows ∧ 0 < r.width ∧ 0 < r.height) :
    ∃ mask, create_mask image bounding_boxes = some mask ∧
      mask.rows = image.rows ∧ mask.cols = image.cols ∧
      mask.data.length = image.rows ∧ (∀ row ∈ mask.data, row.length = image.cols) ∧
      ∀ px py, px < image.cols → py < image.rows →
        mask.at py px =
          some (if ∃ r ∈ bounding_boxes, r.contains px py then 255 else 0) := by
  have hv : ∀ r ∈ bounding_boxes, (Mat.zeros image.rows image.cols).roiValid r := by
    intro r hr
    obtain ⟨h1, h2, h3, h4, h5, h6⟩ := h r hr
    exact ⟨h1, le_of_lt h5, h3, h2, le_of_lt h6, h4⟩
  obtain ⟨m, hm, h1, h2, h3, h4, h5⟩ := fill_loop bounding_boxes _ hv
  refine ⟨m, hm, h1, h2, ?_, ?_, ?_⟩
  · rw [h3]; simp [Mat.zeros]
  · intro row hrow
    rw [h4 (by simp [Mat.zeros]) row hrow, h2]
    rfl
  · intro px py hx hy
    rw [h5 py px, Mat.at_zeros _ _ _ _ hy hx]
    rfl

/-- C1, the spec's example: the single rectangle `{x:10, y:10, w:20, h:15}` on a
100 × 100 zero image gives 255 exactly for `10 ≤ px < 30` and `10 ≤ py < 25`. -/
theorem create_mask_spec_witness :
    ∃ mask, create_mask (zero_image 100 100) [⟨10, 10, 20, 15⟩] = some mask ∧
      mask.rows = 100 ∧ mask.cols = 100 ∧
      ∀ px py, px < 100 → py < 100 →
        mask.at py px =
          some (if 10 ≤ px ∧ px < 30 ∧ 10 ≤ py ∧ py < 25 then 255 else 0) := by
  obtain ⟨mask, h1, h2, h3, _, _, h6⟩ :=
    create_mask_spec (zero_image 100 100) [⟨10, 10, 20, 15⟩]
      (by intro r hr; rw [List.mem_singleton] at hr; subst hr; decide)
  refine ⟨mask, h1, h2, h3, ?_⟩
  intro px py hx hy
  rw [h6 px py hx hy]
  congr 1
  simp only [List.mem_singleton, exists_eq_left, Rect.contains]
  have e1 : ((10 : Int) ≤ (px : Int)) ↔ 10 ≤ px := by omega
  have e2 : ((px : Int) < 10 + 20) ↔ px < 30 := by omega
  have e3 : ((10 : Int) ≤ (py : Int)) ↔ 10 ≤ py := by omega
  have e4 : ((py : Int) < 10 + 15) ↔ py < 25 := by omega
  simp only [e1, e2, e3, e4]

/-! ## C2: `create_masks` -/

theorem create_mask_total {α : Type} (image : Mat α) (bounding_boxes : List Rect)
    (h : ∀ r ∈ bounding_boxes, image.roiValid r) :
    ∃ mask, create_mask image bounding_boxes = some mask := by
  obtain ⟨m, hm, _⟩ := fill_loop bounding_boxes (Mat.zeros image.rows image.cols) h
  exact ⟨m, hm⟩

theorem create_mask_none {α : Type} (image : Mat α) (bounding_boxes : List Rect)
    (r : Rect) (hr : r ∈ bounding_boxes) (h : ¬ image.roiValid r) :
    create_mask image bounding_boxes = none := by
  unfold create_mask
  have key : ∀ (bbs : List Rect) (m0 : Mat Nat), m0.rows = image.rows → m0.cols = image.cols →
      r ∈ bbs → bbs.foldlM (fun mask rect => mask.setRoi rect 255) m0 = none := by
    intro bbs
    induction bbs with
    | nil => intro m0 _ _ hmem; exact absurd hmem (List.not_mem_nil _)
    | cons q rest ih =>
      intro m0 h1 h2 hmem
      rw [List.foldlM_cons]
      by_cases hq : m0.roiValid q
      · rw [Mat.setRoi_eq_some hq]
        rcases List.mem_cons.mp hmem with heq | hrest
        · subst heq
          exact absurd (by unfold Mat.roiValid at hq ⊢; rw [← h1, ← h2]; exact hq) h
        · exact ih _ h1 h2 hrest
      · rw [Mat.setRoi_eq_none hq]; rfl
  exact key bounding_boxes _ rfl rfl hr

/-- The loop of `create_masks` from any accumulator `out`: the masks of the
non-empty sequences are appended in order. -/
theorem masks_loop {α : Type} (image : Mat α) (bbs : Brush → List Rect)
    (l : List Brush) (out : List (Mat Nat)) :
    l.foldlM
      (fun out i =>
        if (bbs i).length ≠ 0 then
          (create_mask image (bbs i)).bind fun mask => some (out ++ [mask])
        else
          some out)
      out
    = ((l.filter fun i => decide (bbs i ≠ [])).mapM fun i => create_mask image (bbs i)).map
        (out ++ ·) := by
  induction l generalizing out with
  | nil =>
    rw [List.filter_nil, List.mapM_nil, List.foldlM_nil]
    show some out = some (out ++ [])
    rw [List.append_nil]
  | cons i rest ih =>
    rw [List.foldlM_cons]
    by_cases hi : bbs i = []
    · rw [if_neg (by simp [hi]), List.filter_cons_of_neg (by simp [hi])]
      exact ih out
    · have hlen : (bbs i).length ≠ 0 := by
        simpa [List.length_eq_zero] using hi
      rw [if_pos hlen, List.filter_cons_of_pos (by simp [hi]), List.mapM_cons]
      cases hc : create_mask image (bbs i) with
      | none => rfl
      | some mask =>
        simp only [Option.some_bind, Option.bind_eq_bind]
        rw [ih (out ++ [mask])]
        cases (List.filter (fun i => decide (bbs i ≠ [])) rest).mapM
            fun i => create_mask image (bbs i) with
        | none => rfl
        | some ms => simp

theorem mapM_eq_some_iff {β γ : Type} (f : β → Option γ) (l : List β) (ys : List γ) :
    l.mapM f = some ys ↔ List.Forall₂ (fun x y => f x = some y) l ys := by
  induction l generalizing ys with
  | nil =>
    rw [List.mapM_nil]
    constructor
    · intro h; injection h with h; subst h; exact List.Forall₂.nil
    · intro h; cases h; rfl
  | cons x rest ih =>
    rw [List.mapM_cons]
    cases hx : f x with
    | none =>
      constructor
      · intro h; exact absurd h (by simp)
      · intro h; cases h with
        | cons h1 _ => rw [hx] at h1; exact absurd h1 (by simp)
    | some y =>
      cases hr : rest.mapM f with
      | none =>
        constructor
        · intro h; exact absurd h (by simp)
        · intro h; cases h with
          | cons _ h2 => rw [← ih, hr] at h2; exact absurd h2 (by simp)
      | some zs =>
        constructor
        · intro h
          have : y :: zs = ys := by simpa using h
          subst this
          exact List.Forall₂.cons hx ((ih zs).mp hr)
        · intro h; cases h with
          | cons h1 h2 =>
            rw [hx] at h1; injection h1 with h1
            have := (ih _).mpr h2
            rw [hr] at this; injection this with this
            subst h1; subst this; rfl

theorem mapM_total {β γ : Type} (f : β → Option γ) (l : List β)
    (h : ∀ x ∈ l, ∃ y, f x = some y) : ∃ ys, l.mapM f = some ys := by
  induction l with
  | nil => exact ⟨[], rfl⟩
  | cons x rest ih =>
    obtain ⟨y, hy⟩ := h x (List.mem_cons_self _ _)
    obtain ⟨ys, hys⟩ := ih fun z hz => h z (List.mem_cons_of_mem _ hz)
    exact ⟨y :: ys, by rw [List.mapM_cons, hy, hys]; rfl⟩

theorem create_masks_eq_mapM {α : Type} (image : Mat α) (bbs : Brush → List Rect) :
    create_masks image bbs =
      (nonempty_brushes bbs).mapM fun b => create_mask image (bbs b) := by
  unfold create_masks nonempty_brushes
  rw [masks_loop]
  cases (List.filter (fun i => decide (bbs i ≠ [])) (List.finRange NUM_BRUSHES)).mapM
      fun i => create_mask image (bbs i) with
  | none => rfl
  | some ms => simp

theorem create_masks_some {α : Type} (image : Mat α) (bbs : Brush → List Rect)
    (masks : List (Mat Nat)) (h : create_masks image bbs = some masks) :
    masks.length = (nonempty_brushes bbs).length ∧
    ∀ (k : Nat) (b : Brush), (nonempty_brushes bbs)[k]? = some b →
      masks[k]? = create_mask image (bbs b) := by
  rw [create_masks_eq_mapM, mapM_eq_some_iff] at h
  refine ⟨h.length_eq.symm, ?_⟩
  intro k b hk
  rw [List.forall₂_iff_get] at h
  obtain ⟨hlen, hget⟩ := h
  have hk1 : k < (nonempty_brushes bbs).length := by
    by_contra hcon
    rw [List.getElem?_eq_none (by omega)] at hk
    exact absurd hk (by simp)
  have hk2 : k < masks.length := by omega
  have := hget k hk1 hk2
  rw [List.getElem?_eq_getElem hk1] at hk
  injection hk with hk
  rw [List.getElem?_eq_getElem hk2, ← hk]
  simpa using this.symm

theorem create_masks_total {α : Type} (image : Mat α) (bbs : Brush → List Rect)
    (h : ∀ b, ∀ r ∈ bbs b, image.roiValid r) :
    ∃ masks, create_masks image bbs = some masks := by
  rw [create_masks_eq_mapM]
  exact mapM_total _ _ fun b _ => create_mask_total image (bbs b) (h b)

/-- C2. For every store of five rectangle sequences, `create_masks` is
`create_mask` applied, in order, to the sequences of the non-empty brushes in
ascending brush order: the number of masks returned is the number of non-empty
brushes and the `k`-th mask returned is `create_mask` of the `k`-th non-empty
brush, empty brushes leaving no gap.  Masks are returned whenever every
rectangle passes the range check of the image; when `create_mask` raises for
one of the non-empty brushes, so does `create_masks`. -/
theorem create_masks_spec {α : Type} (image : Mat α) (bounding_boxes : Brush → List Rect) :
    create_masks image bounding_boxes =
      (nonempty_brushes bounding_boxes).mapM (fun b => create_mask image (bounding_boxes b)) ∧
    (∀ masks, create_masks image bounding_boxes = some masks →
      masks.length = (nonempty_brushes bounding_boxes).length ∧
      ∀ (k : Nat) (b : Brush), (nonempty_brushes bounding_boxes)[k]? = some b →
        masks[k]? = create_mask image (bounding_boxes b)) ∧
    ((∀ b, ∀ r ∈ bounding_boxes b, image.roiValid r) →
      ∃ masks, create_masks image bounding_boxes = some masks) :=
  ⟨create_masks_eq_mapM image bounding_boxes,
   create_masks_some image bounding_boxes,
   create_masks_total image bounding_boxes⟩

/-- C2 at a store with rectangles on brushes `ONE` and `THREE` only: two masks
are returned, the first of brush `ONE` and the second of brush `THREE`. -/
theorem create_masks_spec_witness :
    nonempty_brushes photo_config.bounding_boxes = [ONE, THREE] ∧
    ∃ mask1 mask3,
      create_masks photo_config.image photo_config.bounding_boxes = some [mask1, mask3] ∧
      create_mask photo_config.image (photo_config.bounding_boxes ONE) = some mask1 ∧
      create_mask photo_config.image (photo_config.bounding_boxes THREE) = some mask3 := by
  have hne : nonempty_brushes photo_config.bounding_boxes = [ONE, THREE] := by decide
  refine ⟨hne, ?_⟩
  obtain ⟨_, hsome, htotal⟩ := create_masks_spec photo_config.image photo_config.bounding_boxes
  obtain ⟨masks, hm⟩ := htotal (by decide)
  obtain ⟨hlen, hk⟩ := hsome masks hm
  rw [hne] at hlen hk
  match masks, hlen, hm, hk with
  | [m1, m3], _, hm, hk =>
    exact ⟨m1, m3, hm, (hk 0 ONE rfl).symm, (hk 1 THREE rfl).symm⟩

/-! ## Lemmas on `mouseHandler` and the key switch -/

theorem mouseHandler_down {α : Type} (x y : Int) (conf : Config α) :
    mouseHandler EVENT_LBUTTONDOWN x y conf =
      ({ conf with bounding_box := { conf.bounding_box with x := x, y := y } }, []) := by
  simp [mouseHandler]

theorem mouseHandler_up_commit {α : Type} (x y : Int) (conf : Config α)
    (hw : 0 < x - conf.bounding_box.x) (hh : 0 < y - conf.bounding_box.y) :
    mouseHandler EVENT_LBUTTONUP x y conf =
      ({ conf with
          bounding_box :=
            ⟨conf.bounding_box.x, conf.bounding_box.y,
             x - conf.bounding_box.x, y - conf.bounding_box.y⟩,
          bounding_boxes :=
            Function.update conf.bounding_boxes conf.brush
              (conf.bounding_boxes conf.brush ++
                [⟨conf.bounding_box.x, conf.bounding_box.y,
                  x - conf.bounding_box.x, y - conf.bounding_box.y⟩]) },
       [draw_bounding_boxes conf.image
          (Function.update conf.bounding_boxes conf.brush
            (conf.bounding_boxes conf.brush ++
              [⟨conf.bounding_box.x, conf.bounding_box.y,
                x - conf.bounding_box.x, y - conf.bounding_box.y⟩]))]) := by
  have hup : EVENT_LBUTTONUP ≠ EVENT_LBUTTONDOWN := by decide
  have hcond : ¬ (x - conf.bounding_box.x ≤ 0 ∨ y - conf.bounding_box.y ≤ 0) := by omega
  simp only [mouseHandler, hup, if_false, if_true, hcond, Config.set_current_bb,
    Config.get_current_bb]

theorem mouseHandler_up_discard {α : Type} (x y : Int) (conf : Config α)
    (h : x - conf.bounding_box.x ≤ 0 ∨ y - conf.bounding_box.y ≤ 0) :
    mouseHandler EVENT_LBUTTONUP x y conf = (conf, []) := by
  have hup : EVENT_LBUTTONUP ≠ EVENT_LBUTTONDOWN := by decide
  simp only [mouseHandler, hup, if_false, if_true, h]

theorem mouseHandler_other {α : Type} (event x y : Int) (conf : Config α)
    (h1 : event ≠ EVENT_LBUTTONDOWN) (h2 : event ≠ EVENT_LBUTTONUP) :
    mouseHandler event x y conf = (conf, []) := by
  simp only [mouseHandler, h1, h2, if_false]

theorem chr_q : chr 'q' = 113 := by decide
theorem chr_u : chr 'u' = 117 := by decide
theorem chr_s : chr 's' = 115 := by decide
theorem chr_1 : chr '1' = 49 := by decide
theorem chr_2 : chr '2' = 50 := by decide
theorem chr_3 : chr '3' = 51 := by decide
theorem chr_4 : chr '4' = 52 := by decide
theorem chr_5 : chr '5' = 53 := by decide

theorem key_switch_q {α : Type} (fname output_dir : String) (conf : Config α) :
    key_switch fname output_dir (chr 'q') conf = Step.ret 0 conf [] := by
  simp [key_switch]

theorem key_switch_u {α : Type} (fname output_dir : String) (conf : Config α) :
    key_switch fname output_dir (chr 'u') conf =
      if conf.bounding_boxes conf.brush ≠ [] then
        Step.next (conf.set_current_bb (conf.bounding_boxes conf.brush).dropLast)
          [draw_bounding_boxes conf.image
            (Function.update conf.bounding_boxes conf.brush
              (conf.bounding_boxes conf.brush).dropLast)]
      else
        Step.next conf [] := by
  have h1 : chr 'u' ≠ chr 'q' := by decide
  simp only [key_switch, h1, if_false, if_true, Config.get_current_bb, Config.set_current_bb]
  by_cases h : conf.bounding_boxes conf.brush = []
  · simp [h]
  · have hlen : (conf.bounding_boxes conf.brush).length ≠ 0 := by
      simpa [List.length_eq_zero] using h
    simp [h, hlen]

theorem key_switch_s {α : Type} (fname output_dir : String) (conf : Config α) :
    key_switch fname output_dir (chr 's') conf =
      match create_masks conf.image conf.bounding_boxes with
      | none => Step.raise conf []
      | some masks =>
        Step.ret 0 { conf with masks := masks }
          (masks.enum.map fun im =>
            Effect.imwrite (output_name output_dir fname im.1) im.2) := by
  have h1 : chr 's' ≠ chr 'q' := by decide
  have h2 : chr 's' ≠ chr 'u' := by decide
  simp only [key_switch, h1, h2, if_false, if_true]

theorem key_switch_brush {α : Type} (fname output_dir : String) (k : Brush) (conf : Config α) :
    key_switch fname output_dir (chr '1' + (k.val : Int)) conf =
      Step.next { conf with brush := k } [] := by
  have hk : k.val < 5 := k.isLt
  have h1 : chr '1' + (k.val : Int) ≠ chr 'q' := by rw [chr_1, chr_q]; omega
  have h2 : chr '1' + (k.val : Int) ≠ chr 'u' := by rw [chr_1, chr_u]; omega
  have h3 : chr '1' + (k.val : Int) ≠ chr 's' := by rw [chr_1, chr_s]; omega
  have h4 : chr '1' + (k.val : Int) = chr '1' ∨ chr '1' + (k.val : Int) = chr '2' ∨
      chr '1' + (k.val : Int) = chr '3' ∨ chr '1' + (k.val : Int) = chr '4' ∨
      chr '1' + (k.val : Int) = chr '5' := by
    rw [chr_1, chr_2, chr_3, chr_4, chr_5]; omega
  have h5 : Brush.ofInt (chr '1' + (k.val : Int) - chr '1') = k := by
    have : chr '1' + (k.val : Int) - chr '1' = (k.val : Int) := by omega
    rw [this]
    apply Fin.ext
    simp [Brush.ofInt, Fin.ofNat, Nat.mod_eq_of_lt hk]
  simp only [key_switch, h1, h2, h3, h4, h5, if_false, if_true]

/-- The switch changes the store only on the undo key, and then by dropping
the last rectangle of the active brush. -/
theorem key_switch_store {α : Type} (fname output_dir : String) (key : Int) (conf : Config α) :
    (key_switch fname output_dir key conf).conf.image = conf.image ∧
    (key_switch fname output_dir key conf).conf.bounding_box = conf.bounding_box ∧
    ∀ b, (key_switch fname output_dir key conf).conf.bounding_boxes b = conf.bounding_boxes b ∨
      (key_switch fname output_dir key conf).conf.bounding_boxes b =
        (conf.bounding_boxes b).dropLast := by
  unfold key_switch
  split
  · exact ⟨rfl, rfl, fun b => Or.inl rfl⟩
  split
  · split
    · refine ⟨rfl, rfl, fun b => ?_⟩
      by_cases hb : b = conf.brush
      · subst hb
        right
        simp [Step.conf, Config.set_current_bb, Config.get_current_bb]
      · left
        simp [Step.conf, Config.set_current_bb, Function.update_noteq hb]
    · exact ⟨rfl, rfl, fun b => Or.inl rfl⟩
  split
  · split
    · exact ⟨rfl, rfl, fun b => Or.inl rfl⟩
    · exact ⟨rfl, rfl, fun b => Or.inl rfl⟩
  split
  · exact ⟨rfl, rfl, fun b => Or.inl rfl⟩
  · exact ⟨rfl, rfl, fun b => Or.inl rfl⟩

/-- A property of the session state that every handled event preserves holds
after the whole event list. -/
theorem session_loop_invariant {α : Type} (P : Config α → Prop) (fname output_dir : String)
    (events : List Event)
    (hmouse : ∀ event x y, Event.mouse event x y ∈ events →
      ∀ c, P c → P (mouseHandler event x y c).1)
    (hkey : ∀ key, Event.key key ∈ events →
      ∀ c, P c → P (key_switch fname output_dir key c).conf) :
    ∀ (conf : Config α) (effects : List (Effect α)), P conf →
      P (session_loop fname output_dir conf effects events).conf := by
  induction events with
  | nil => intro conf effects h; exact h
  | cons e rest ih =>
    have ih1 := ih (fun event x y hm => hmouse event x y (List.mem_cons_of_mem _ hm))
      (fun key hm => hkey key (List.mem_cons_of_mem _ hm))
    intro conf effects h
    cases e with
    | mouse event x y =>
      rw [session_loop]
      exact ih1 _ _ (hmouse event x y (List.mem_cons_self _ _) conf h)
    | key key =>
      have hk := hkey key (List.mem_cons_self _ _) conf h
      rw [session_loop]
      cases hs : key_switch fname output_dir key conf with
      | next c out => rw [hs] at hk; exact ih1 _ _ hk
      | ret code c out => rw [hs] at hk; exact hk
      | raise c out => rw [hs] at hk; exact hk

theorem session_loop_key_next {α : Type} (fname output_dir : String) (key : Int)
    (conf : Config α) (effects : List (Effect α)) (conf1 : Config α) (out : List (Effect α))
    (rest : List Event) (h : key_switch fname output_dir key conf = Step.next conf1 out) :
    session_loop fname output_dir conf effects (Event.key key :: rest) =
      session_loop fname output_dir conf1 (effects ++ out) rest := by
  rw [session_loop, h]

/-! ## The stem of a path -/

theorem takeWhile_append_stop {β : Type} (p : β → Bool) (l : List β) (a : β) (r : List β)
    (hl : ∀ c ∈ l, p c = true) (ha : p a = false) :
    (l ++ a :: r).takeWhile p = l := by
  induction l with
  | nil => simp [List.takeWhile, ha]
  | cons c rest ih =>
    have hc := hl c (List.mem_cons_self _ _)
    rw [List.cons_append, List.takeWhile_cons, hc]
    simp only [if_true]
    rw [ih fun d hd => hl d (List.mem_cons_of_mem _ hd)]

theorem dropWhile_append_stop {β : Type} (p : β → Bool) (l : List β) (a : β) (r : List β)
    (hl : ∀ c ∈ l, p c = true) (ha : p a = false) :
    (l ++ a :: r).dropWhile p = a :: r := by
  induction l with
  | nil => simp [List.dropWhile, ha]
  | cons c rest ih =>
    have hc := hl c (List.mem_cons_self _ _)
    rw [List.cons_append, List.dropWhile_cons, hc]
    simp only [if_true]
    exact ih fun d hd => hl d (List.mem_cons_of_mem _ hd)

/-- The stem of `<dir>/<base>.<ext>` is `<base>`: directory and extension are
removed, for a non-empty `base` without `/` or `.` and an `ext` without `/`
or `.`. -/
theorem stem_spec (dir base ext : List Char) (hb : base ≠ [])
    (hb1 : '/' ∉ base) (hb2 : '.' ∉ base) (he1 : '/' ∉ ext) (he2 : '.' ∉ ext) :
    stem (String.mk (dir ++ '/' :: (base ++ '.' :: ext))) = String.mk base := by
  have hfile : filename (dir ++ '/' :: (base ++ '.' :: ext)) = base ++ '.' :: ext := by
    unfold filename
    have hrev : (dir ++ '/' :: (base ++ '.' :: ext)).reverse =
        (base ++ '.' :: ext).reverse ++ '/' :: dir.reverse := by
      simp
    rw [hrev, takeWhile_append_stop _ _ _ _ _ (by simp), List.reverse_reverse]
    intro c hc
    have hc1 : c ∈ base ++ '.' :: ext := List.mem_reverse.mp hc
    have : c ≠ '/' := by
      intro heq
      subst heq
      rcases List.mem_append.mp hc1 with h | h
      · exact hb1 h
      · rcases List.mem_cons.mp h with h | h
        · exact absurd h (by decide)
        · exact he1 h
    simpa using this
  have hfront : (((base ++ '.' :: ext).reverse.dropWhile (· ≠ '.')).drop 1).reverse = base := by
    have hrev : (base ++ '.' :: ext).reverse = ext.reverse ++ '.' :: base.reverse := by simp
    rw [hrev, dropWhile_append_stop _ _ _ _ _ (by simp)]
    · simp
    · intro c hc
      have hc1 : c ∈ ext := List.mem_reverse.mp hc
      have : c ≠ '.' := by
        intro heq
        subst heq
        exact he2 hc1
      simpa using this
  have hcond : ¬ (base ++ '.' :: ext = ['.'] ∨ base ++ '.' :: ext = ['.', '.'] ∨
      ¬ '.' ∈ base ++ '.' :: ext) := by
    obtain ⟨b, bs, rfl⟩ := List.exists_cons_of_ne_nil hb
    have hbdot : b ≠ '.' := by
      intro heq
      subst heq
      exact hb2 (List.mem_cons_self _ _)
    rintro (h | h | h)
    · simp only [List.cons_append, List.cons.injEq] at h
      exact hbdot h.1
    · simp only [List.cons_append, List.cons.injEq] at h
      exact hbdot h.1
    · exact h (List.mem_append_right _ (List.mem_cons_self _ _))
  simp only [stem, String.toList, hfile, hfront, if_neg hcond, if_neg hb]

/-! ## C3: the save key -/

/-- C3, as the code has it. For every session state whose rectangles all pass
the range check of the image, pressing `s` ends the session with return code 0
and writes exactly one file per non-empty brush: with `n` non-empty brushes the
`i`-th write (`i = 0 .. n-1`) goes to `<output_dir>/<stem>_output<i>.jpg`, where
`<stem>` is `stem file_name` and `i` counts non-empty brushes in ascending
order, and holds `create_mask` of the `i`-th non-empty brush. -/
theorem save_key_spec {α : Type} (file_name output_dir : String) (conf : Config α)
    (effects : List (Effect α)) (rest : List Event)
    (h : ∀ b, ∀ r ∈ conf.bounding_boxes b, conf.image.roiValid r) :
    ∃ (masks : List (Mat Nat)) (writes : List (Effect α)),
      masks.length = (nonempty_brushes conf.bounding_boxes).length ∧
      (∀ (k : Nat) (b : Brush), (nonempty_brushes conf.bounding_boxes)[k]? = some b →
        masks[k]? = create_mask conf.image (conf.bounding_boxes b)) ∧
      (session_loop (stem file_name) output_dir conf effects
        (Event.key (chr 's') :: rest)).status = Status.returned 0 ∧
      (session_loop (stem file_name) output_dir conf effects
        (Event.key (chr 's') :: rest)).effects = effects ++ writes ∧
      writes.length = (nonempty_brushes conf.bounding_boxes).length ∧
      ∀ (i : Nat) (mask : Mat Nat), masks[i]? = some mask →
        writes[i]? = some (Effect.imwrite
          (output_dir ++ "/" ++ stem file_name ++ "_output" ++ toString i ++ ".jpg") mask) := by
  obtain ⟨masks, hm⟩ := create_masks_total conf.image conf.bounding_boxes h
  obtain ⟨hlen, hk⟩ := create_masks_some conf.image conf.bounding_boxes masks hm
  refine ⟨masks, masks.enum.map fun im =>
    Effect.imwrite (output_name output_dir (stem file_name) im.1) im.2, hlen, hk, ?_, ?_, ?_, ?_⟩
  · rw [session_loop, key_switch_s, hm]
  · rw [session_loop, key_switch_s, hm]
  · simp [hlen]
  · intro i mask hi
    simp [List.getElem?_enum, hi, output_name]

/-- C3, the spec's scenario: rectangles A and B on brush 1 and C on brush 3 of
`photo.png` give exactly `photo_output0.jpg` (mask of A and B) and
`photo_output1.jpg` (mask of C). -/
theorem save_key_spec_witness :
    (∀ b, ∀ r ∈ photo_config.bounding_boxes b, photo_config.image.roiValid r) ∧
    (∃ (masks : List (Mat Nat)) (writes : List (Effect Nat)),
      masks.length = (nonempty_brushes photo_config.bounding_boxes).length ∧
      (∀ (k : Nat) (b : Brush), (nonempty_brushes photo_config.bounding_boxes)[k]? = some b →
        masks[k]? = create_mask photo_config.image (photo_config.bounding_boxes b)) ∧
      (session_loop (stem "dir/photo.png") "out" photo_config []
        (Event.key (chr 's') :: [])).status = Status.returned 0 ∧
      (session_loop (stem "dir/photo.png") "out" photo_config []
        (Event.key (chr 's') :: [])).effects = [] ++ writes ∧
      writes.length = (nonempty_brushes photo_config.bounding_boxes).length ∧
      ∀ (i : Nat) (mask : Mat Nat), masks[i]? = some mask →
        writes[i]? = some (Effect.imwrite
          ("out" ++ "/" ++ stem "dir/photo.png" ++ "_output" ++ toString i ++ ".jpg") mask)) ∧
    written_files (label_problems imread4 "dir/photo.png" "out"
      [press 0 0, release 1 1, press 1 0, release 3 1, Event.key (chr '3'),
       press 2 2, release 4 4, Event.key (chr 's')]).effects =
      [("out/photo_output0.jpg",
          ⟨4, 4, [[255, 255, 255, 0], [0, 0, 0, 0], [0, 0, 0, 0], [0, 0, 0, 0]]⟩),
       ("out/photo_output1.jpg",
          ⟨4, 4, [[0, 0, 0, 0], [0, 0, 0, 0], [0, 0, 255, 255], [0, 0, 255, 255]]⟩)] :=
  ⟨by decide, save_key_spec "dir/photo.png" "out" photo_config [] [] (by decide), by decide⟩

/-- C3 as stated fails: after a drag from `(1, 1)` to `(6, 6)` on a 4 × 4 image
one brush is non-empty, yet pressing `s` writes no file: the fill of the
rectangle `{1, 1, 5, 5}` fails the range check and the exception leaves
`label_problems`. -/
theorem save_key_counterexample :
    (label_problems imread4 "photo.png" "out" [press 1 1, release 6 6]).status
      = Status.waiting ∧
    (nonempty_brushes
      (label_problems imread4 "photo.png" "out"
        [press 1 1, release 6 6]).conf.bounding_boxes).length = 1 ∧
    (label_problems imread4 "photo.png" "out"
      [press 1 1, release 6 6, Event.key (chr 's')]).status = Status.thrown ∧
    written_files (label_problems imread4 "photo.png" "out"
      [press 1 1, release 6 6, Event.key (chr 's')]).effects = [] := by
  decide

/-! ## C4: a left-button release -/

/-- C4. On a left-button release at `(x, y)` with pending origin `(ox, oy)`, let
`width = x - ox` and `height = y - oy`.  If both are positive, the rectangle
`{ox, oy, width, height}` is appended once at the end of the active brush's
sequence, every other brush's sequence, the active brush and the image are
unchanged, and one redraw of the new store is triggered.  If `width ≤ 0` or
`height ≤ 0`, the state is unchanged and nothing is drawn. -/
theorem mouseHandler_release {α : Type} (x y : Int) (conf : Config α) :
    (0 < x - conf.bounding_box.x ∧ 0 < y - conf.bounding_box.y →
      ∃ conf1, mouseHandler EVENT_LBUTTONUP x y conf =
          (conf1, [draw_bounding_boxes conf.image conf1.bounding_boxes]) ∧
        conf1.bounding_boxes conf.brush =
          conf.bounding_boxes conf.brush ++
            [⟨conf.bounding_box.x, conf.bounding_box.y,
              x - conf.bounding_box.x, y - conf.bounding_box.y⟩] ∧
        (∀ b, b ≠ conf.brush → conf1.bounding_boxes b = conf.bounding_boxes b) ∧
        conf1.brush = conf.brush ∧ conf1.image = conf.image) ∧
    (x - conf.bounding_box.x ≤ 0 ∨ y - conf.bounding_box.y ≤ 0 →
      mouseHandler EVENT_LBUTTONUP x y conf = (conf, [])) := by
  constructor
  · rintro ⟨hw, hh⟩
    refine ⟨_, mouseHandler_up_commit x y conf hw hh, ?_, ?_, rfl, rfl⟩
    · simp
    · intro b hb
      simp [Function.update_noteq hb]
  · exact mouseHandler_up_discard x y conf

/-- C4 at a concrete state: with origin `(2, 2)` and brush `THREE` active, a
release at `(3, 4)` appends `{2, 2, 1, 2}` to brush `THREE` and redraws once; a
release at `(2, 5)` changes nothing and draws nothing. -/
theorem mouseHandler_release_witness :
    (mouseHandler EVENT_LBUTTONUP 3 4 photo_config).1.bounding_boxes THREE =
      [⟨2, 2, 2, 2⟩, ⟨2, 2, 1, 2⟩] ∧
    (mouseHandler EVENT_LBUTTONUP 3 4 photo_config).1.bounding_boxes ONE =
      [⟨0, 0, 1, 1⟩, ⟨1, 0, 2, 1⟩] ∧
    redraws (mouseHandler EVENT_LBUTTONUP 3 4 photo_config).2 = 1 ∧
    mouseHandler EVENT_LBUTTONUP 2 5 photo_config = (photo_config, []) := by
  obtain ⟨conf1, h1, h2, h3, _, _⟩ :=
    (mouseHandler_release 3 4 photo_config).1 (by decide)
  refine ⟨?_, ?_, ?_, (mouseHandler_release 2 5 photo_config).2 (by decide)⟩
  · rw [h1]; exact h2
  · rw [h1]; exact h3 ONE (by decide)
  · rw [h1]; rfl

/-! ## C5: the undo key -/

/-- C5. For every session state, pressing `u` keeps the loop running and
replaces the active brush's sequence by that sequence without its last element
(an empty sequence stays empty and the whole state is then unchanged), leaves
every other brush's sequence, the active brush, the image and the pending
rectangle unchanged, and triggers one redraw when the sequence was non-empty and
none when it was empty.  After a brush-select key `'1' + k`, the active brush is
`k` and undo pops only from brush `k`. -/
theorem undo_key_spec {α : Type} (fname output_dir : String) (conf : Config α) :
    (∃ conf1 effects,
      key_switch fname output_dir (chr 'u') conf = Step.next conf1 effects ∧
      conf1.bounding_boxes conf.brush = (conf.bounding_boxes conf.brush).dropLast ∧
      (∀ b, b ≠ conf.brush → conf1.bounding_boxes b = conf.bounding_boxes b) ∧
      conf1.brush = conf.brush ∧ conf1.image = conf.image ∧
      conf1.bounding_box = conf.bounding_box ∧
      (conf.bounding_boxes conf.brush ≠ [] →
        effects = [draw_bounding_boxes conf.image conf1.bounding_boxes]) ∧
      (conf.bounding_boxes conf.brush = [] → effects = [] ∧ conf1 = conf)) ∧
    (∀ (k : Brush) (effects : List (Effect α)),
      key_switch fname output_dir (chr '1' + (k.val : Int)) conf =
        Step.next { conf with brush := k } [] ∧
      (session_loop fname output_dir conf effects
        [Event.key (chr '1' + (k.val : Int)), Event.key (chr 'u')]).conf.brush = k ∧
      (session_loop fname output_dir conf effects
        [Event.key (chr '1' + (k.val : Int)), Event.key (chr 'u')]).conf.bounding_boxes =
          Function.update conf.bounding_boxes k (conf.bounding_boxes k).dropLast) := by
  constructor
  · by_cases h : conf.bounding_boxes conf.brush = []
    · refine ⟨conf, [], ?_, ?_, fun _ _ => rfl, rfl, rfl, rfl, fun hne => absurd h hne,
        fun _ => ⟨rfl, rfl⟩⟩
      · rw [key_switch_u]; simp [h]
      · rw [h]; rfl
    · refine ⟨conf.set_current_bb (conf.bounding_boxes conf.brush).dropLast, _, ?_, ?_, ?_,
        rfl, rfl, rfl, fun _ => rfl, fun he => absurd he h⟩
      · rw [key_switch_u]; simp [h]; rfl
      · simp [Config.set_current_bb]
      · intro b hb
        simp [Config.set_current_bb, Function.update_noteq hb]
  · intro k effects
    let conf1 : Config α := { conf with brush := k }
    refine ⟨key_switch_brush fname output_dir k conf, ?_, ?_⟩
    · rw [session_loop_key_next _ _ _ _ _ _ _ _ (key_switch_brush fname output_dir k conf)]
      by_cases he : conf.bounding_boxes k = []
      · rw [session_loop_key_next _ _ _ _ _ conf1 [] _ (by rw [key_switch_u]; simp [conf1, he])]
        rfl
      · rw [session_loop_key_next _ _ _ _ _
          (conf1.set_current_bb (conf1.bounding_boxes conf1.brush).dropLast) _ _
          (by rw [key_switch_u]; simp [conf1, he]; rfl)]
        rfl
    · rw [session_loop_key_next _ _ _ _ _ _ _ _ (key_switch_brush fname output_dir k conf)]
      by_cases he : conf.bounding_boxes k = []
      · rw [session_loop_key_next _ _ _ _ _ conf1 [] _ (by rw [key_switch_u]; simp [conf1, he])]
        show conf.bounding_boxes = _
        rw [he, List.dropLast_nil, ← he, Function.update_eq_self]
      · rw [session_loop_key_next _ _ _ _ _
          (conf1.set_current_bb (conf1.bounding_boxes conf1.brush).dropLast) _ _
          (by rw [key_switch_u]; simp [conf1, he]; rfl)]
        rfl

/-- C5 at a concrete state: with brush `THREE` active, `u` empties brush
`THREE` and keeps brush `ONE`; `1` then `u` removes B from brush `ONE` and keeps
brush `THREE`; a second `u` on the emptied brush `THREE` changes nothing. -/
theorem undo_key_spec_witness :
    (session_loop "photo" "out" photo_config [] [Event.key (chr 'u')]).conf.bounding_boxes THREE
      = [] ∧
    (session_loop "photo" "out" photo_config [] [Event.key (chr 'u')]).conf.bounding_boxes ONE
      = [⟨0, 0, 1, 1⟩, ⟨1, 0, 2, 1⟩] ∧
    (session_loop "photo" "out" photo_config []
      [Event.key (chr 'u'), Event.key (chr 'u')]).conf.bounding_boxes THREE = [] ∧
    (session_loop "photo" "out" photo_config []
      [Event.key (chr 'u'), Event.key (chr 'u')]).status = Status.waiting ∧
    redraws (session_loop "photo" "out" photo_config []
      [Event.key (chr 'u'), Event.key (chr 'u')]).effects = 1 ∧
    (session_loop "photo" "out" photo_config []
      [Event.key (chr '1' + ((ONE : Brush).val : Int)), Event.key (chr 'u')]).conf.bounding_boxes =
        Function.update photo_config.bounding_boxes ONE
          (photo_config.bounding_boxes ONE).dropLast :=
  ⟨by decide, by decide, by decide, by decide, by decide,
   ((undo_key_spec "photo" "out" photo_config).2 ONE []).2.2⟩

/-! ## C6: the store invariant -/

/-- Every stored rectangle has positive width and height. -/
theorem mouseHandler_positive {α : Type} (event x y : Int) (conf : Config α)
    (h : ∀ b, ∀ r ∈ conf.bounding_boxes b, 0 < r.width ∧ 0 < r.height) :
    ∀ b, ∀ r ∈ (mouseHandler event x y conf).1.bounding_boxes b, 0 < r.width ∧ 0 < r.height := by
  by_cases h1 : event = EVENT_LBUTTONDOWN
  · subst h1; rw [mouseHandler_down]; exact h
  by_cases h2 : event = EVENT_LBUTTONUP
  · subst h2
    by_cases hc : x - conf.bounding_box.x ≤ 0 ∨ y - conf.bounding_box.y ≤ 0
    · rw [mouseHandler_up_discard x y conf hc]; exact h
    · have hw : 0 < x - conf.bounding_box.x := by omega
      have hh : 0 < y - conf.bounding_box.y := by omega
      rw [mouseHandler_up_commit x y conf hw hh]
      intro b r hr
      by_cases hb : b = conf.brush
      · subst hb
        simp only [Function.update_same, List.mem_append, List.mem_singleton] at hr
        rcases hr with hr | hr
        · exact h _ r hr
        · subst hr; exact ⟨hw, hh⟩
      · simp only [Function.update_noteq hb] at hr
        exact h b r hr
  · rw [mouseHandler_other event x y conf h1 h2]; exact h

theorem key_switch_positive {α : Type} (fname output_dir : String) (key : Int) (conf : Config α)
    (h : ∀ b, ∀ r ∈ conf.bounding_boxes b, 0 < r.width ∧ 0 < r.height) :
    ∀ b, ∀ r ∈ (key_switch fname output_dir key conf).conf.bounding_boxes b,
      0 < r.width ∧ 0 < r.height := by
  intro b r hr
  rcases (key_switch_store fname output_dir key conf).2.2 b with hb | hb
  · rw [hb] at hr; exact h b r hr
  · rw [hb] at hr; exact h b r (List.dropLast_subset _ hr)

/-- C6. Starting from the initial session state of `label_problems` (all five
sequences empty, brush `ONE`) and for every finite sequence of events (mouse
events of any kind at any coordinates, and any keys), every rectangle in every
brush's sequence has `width > 0` and `height > 0`. -/
theorem store_positive {α : Type} (imread : String → Mat α) (file_name output_dir : String)
    (events : List Event) (b : Brush) (r : Rect)
    (hr : r ∈ (label_problems imread file_name output_dir events).conf.bounding_boxes b) :
    0 < r.width ∧ 0 < r.height := by
  have hinit : ∀ b, ∀ r ∈ (initial_config (imread file_name)).bounding_boxes b,
      0 < r.width ∧ 0 < r.height := by
    intro b r hr
    exact absurd hr (List.not_mem_nil _)
  unfold label_problems at hr
  simp only at hr
  split at hr
  · exact hinit b r hr
  · exact session_loop_invariant
      (fun c => ∀ b, ∀ r ∈ c.bounding_boxes b, 0 < r.width ∧ 0 < r.height)
      (stem file_name) output_dir events
      (fun event x y _ c hc => mouseHandler_positive event x y c hc)
      (fun key _ c hc => key_switch_positive (stem file_name) output_dir key c hc)
      _ _ hinit b r hr

/-- C6 at a concrete session: after a degenerate drag, two real drags, a brush
change and an undo, the one rectangle left on brush `ONE` has positive size. -/
theorem store_positive_witness :
    (⟨1, 0, 2, 1⟩ : Rect) ∈ (label_problems imread4 "photo.png" "out"
      [press 3 3, release 1 1, press 1 0, release 3 1, Event.key (chr '2'),
       press 0 0, release 2 2, Event.key (chr 'u')]).conf.bounding_boxes ONE ∧
    (0 < (⟨1, 0, 2, 1⟩ : Rect).width ∧ 0 < (⟨1, 0, 2, 1⟩ : Rect).height) :=
  ⟨by decide,
   store_positive imread4 "photo.png" "out"
     [press 3 3, release 1 1, press 1 0, release 3 1, Event.key (chr '2'),
       press 0 0, release 2 2, Event.key (chr 'u')] ONE ⟨1, 0, 2, 1⟩ (by decide)⟩

/-! ## C7 and C9: argument parsing in `main` -/

/-- C7 at the failing input. The help text of `main` announces `--output`, but
the loop compares with `-output`: for `--output out img.png` the output
directory stays `.` and `--output` and `out` are taken as input files, while
`-o out img.png` and `-output out img.png` set the output directory to `out`
and leave `img.png` as the only input file. -/
theorem main_long_output_flag :
    main ["BoulderLabeler", "--output", "out", "img.png"] =
      MainResult.labelled "." ["--output", "out", "img.png"] ∧
    main ["BoulderLabeler", "-o", "out", "img.png"] = MainResult.labelled "out" ["img.png"] ∧
    main ["BoulderLabeler", "-output", "out", "img.png"] =
      MainResult.labelled "out" ["img.png"] := by
  decide

/-- C9 at the failing input. With `-o` as the last of `argc = 3` arguments,
`main` reads `argv[3]`, the null pointer that ends the argument vector, and
builds a `std::string` from it; no error is reported before the read. -/
theorem main_missing_output_value :
    ["BoulderLabeler", "img.png", "-o"].length = 3 ∧
    main ["BoulderLabeler", "img.png", "-o"] = MainResult.read_past_end 3 := by
  decide

/-! ## C8: rectangles and the image bounds -/

theorem mouseHandler_within {α : Type} (img : Mat α) (event x y : Int) (conf : Config α)
    (hev : (Event.mouse event x y).within img.rows img.cols)
    (h : conf.image = img ∧
      (0 ≤ conf.bounding_box.x ∧ conf.bounding_box.x ≤ img.cols ∧
       0 ≤ conf.bounding_box.y ∧ conf.bounding_box.y ≤ img.rows) ∧
      ∀ b, ∀ r ∈ conf.bounding_boxes b, img.roiValid r) :
    (mouseHandler event x y conf).1.image = img ∧
      (0 ≤ (mouseHandler event x y conf).1.bounding_box.x ∧
       (mouseHandler event x y conf).1.bounding_box.x ≤ img.cols ∧
       0 ≤ (mouseHandler event x y conf).1.bounding_box.y ∧
       (mouseHandler event x y conf).1.bounding_box.y ≤ img.rows) ∧
      ∀ b, ∀ r ∈ (mouseHandler event x y conf).1.bounding_boxes b, img.roiValid r := by
  obtain ⟨himg, ⟨hx0, hx1, hy0, hy1⟩, hstore⟩ := h
  unfold Event.within at hev
  by_cases h1 : event = EVENT_LBUTTONDOWN
  · subst h1
    rw [mouseHandler_down]
    exact ⟨himg, hev (Or.inl rfl), hstore⟩
  by_cases h2 : event = EVENT_LBUTTONUP
  · subst h2
    obtain ⟨ex0, ex1, ey0, ey1⟩ := hev (Or.inr rfl)
    by_cases hc : x - conf.bounding_box.x ≤ 0 ∨ y - conf.bounding_box.y ≤ 0
    · rw [mouseHandler_up_discard x y conf hc]
      exact ⟨himg, ⟨hx0, hx1, hy0, hy1⟩, hstore⟩
    · have hw : 0 < x - conf.bounding_box.x := by omega
      have hh : 0 < y - conf.bounding_box.y := by omega
      rw [mouseHandler_up_commit x y conf hw hh]
      refine ⟨himg, ⟨hx0, hx1, hy0, hy1⟩, ?_⟩
      intro b r hr
      by_cases hb : b = conf.brush
      · subst hb
        simp only [Function.update_same, List.mem_append, List.mem_singleton] at hr
        rcases hr with hr | hr
        · exact hstore _ r hr
        · subst hr
          refine ⟨hx0, le_of_lt hw, ?_, hy0, le_of_lt hh, ?_⟩
          · show conf.bounding_box.x + (x - conf.bounding_box.x) ≤ (img.cols : Int)
            omega
          · show conf.bounding_box.y + (y - conf.bounding_box.y) ≤ (img.rows : Int)
            omega
      · simp only [Function.update_noteq hb] at hr
        exact hstore b r hr
  · rw [mouseHandler_other event x y conf h1 h2]
    exact ⟨himg, ⟨hx0, hx1, hy0, hy1⟩, hstore⟩

theorem key_switch_within {α : Type} (img : Mat α) (fname output_dir : String) (key : Int)
    (conf : Config α)
    (h : conf.image = img ∧
      (0 ≤ conf.bounding_box.x ∧ conf.bounding_box.x ≤ img.cols ∧
       0 ≤ conf.bounding_box.y ∧ conf.bounding_box.y ≤ img.rows) ∧
      ∀ b, ∀ r ∈ conf.bounding_boxes b, img.roiValid r) :
    (key_switch fname output_dir key conf).conf.image = img ∧
      (0 ≤ (key_switch fname output_dir key conf).conf.bounding_box.x ∧
       (key_switch fname output_dir key conf).conf.bounding_box.x ≤ img.cols ∧
       0 ≤ (key_switch fname output_dir key conf).conf.bounding_box.y ∧
       (key_switch fname output_dir key conf).conf.bounding_box.y ≤ img.rows) ∧
      ∀ b, ∀ r ∈ (key_switch fname output_dir key conf).conf.bounding_boxes b,
        img.roiValid r := by
  obtain ⟨himg, hbox, hstore⟩ := h
  obtain ⟨k1, k2, k3⟩ := key_switch_store fname output_dir key conf
  refine ⟨k1.trans himg, by rw [k2]; exact hbox, ?_⟩
  intro b r hr
  rcases k3 b with hb | hb
  · rw [hb] at hr; exact hstore b r hr
  · rw [hb] at hr; exact hstore b r (List.dropLast_subset _ hr)

/-- C8, as the code has it. Rectangles are stored as dragged, without clamping.
For every sequence of events whose left-button presses and releases have
coordinates within the image (`0 ≤ x ≤ columns`, `0 ≤ y ≤ rows`), every
rectangle in the store satisfies `0 ≤ x`, `0 ≤ y`, `x + width ≤ columns` and
`y + height ≤ rows`, and the fill of `create_mask` stays inside the mask: it
returns a mask for every brush's sequence. -/
theorem store_within_image {α : Type} (imread : String → Mat α)
    (file_name output_dir : String) (events : List Event)
    (h : ∀ e ∈ events, e.within (imread file_name).rows (imread file_name).cols) :
    ∀ b,
      (∀ r ∈ (label_problems imread file_name output_dir events).conf.bounding_boxes b,
        0 ≤ r.x ∧ 0 ≤ r.y ∧ r.x + r.width ≤ (imread file_name).cols ∧
        r.y + r.height ≤ (imread file_name).rows) ∧
      ∃ mask, create_mask (imread file_name)
        ((label_problems imread file_name output_dir events).conf.bounding_boxes b) =
          some mask := by
  have hinit : (initial_config (imread file_name)).image = imread file_name ∧
      (0 ≤ (initial_config (imread file_name)).bounding_box.x ∧
       (initial_config (imread file_name)).bounding_box.x ≤ (imread file_name).cols ∧
       0 ≤ (initial_config (imread file_name)).bounding_box.y ∧
       (initial_config (imread file_name)).bounding_box.y ≤ (imread file_name).rows) ∧
      ∀ b, ∀ r ∈ (initial_config (imread file_name)).bounding_boxes b,
        (imread file_name).roiValid r := by
    refine ⟨rfl, ⟨le_refl _, ?_, le_refl _, ?_⟩, ?_⟩
    · show (0 : Int) ≤ ((imread file_name).cols : Int)
      omega
    · show (0 : Int) ≤ ((imread file_name).rows : Int)
      omega
    · intro b r hr
      exact absurd hr (List.not_mem_nil _)
  have hall : ∀ b, ∀ r ∈ (label_problems imread file_name output_dir events).conf.bounding_boxes b,
      (imread file_name).roiValid r := by
    unfold label_problems
    simp only
    split
    · exact hinit.2.2
    · exact (session_loop_invariant
        (fun c => c.image = imread file_name ∧
          (0 ≤ c.bounding_box.x ∧ c.bounding_box.x ≤ (imread file_name).cols ∧
           0 ≤ c.bounding_box.y ∧ c.bounding_box.y ≤ (imread file_name).rows) ∧
          ∀ b, ∀ r ∈ c.bounding_boxes b, (imread file_name).roiValid r)
        (stem file_name) output_dir events
        (fun event x y hm c hc =>
          mouseHandler_within (imread file_name) event x y c (h _ hm) hc)
        (fun key _ c hc => key_switch_within (imread file_name) (stem file_name) output_dir key c hc)
        _ _ hinit).2.2
  intro b
  refine ⟨?_, create_mask_total _ _ (hall b)⟩
  intro r hr
  obtain ⟨h1, _, h3, h4, _, h6⟩ := hall b r hr
  exact ⟨h1, h4, h3, h6⟩

/-- C8 at a concrete session: a drag from corner to corner of a 4 × 4 image
stores `{0, 0, 4, 4}`, which lies inside the image. -/
theorem store_within_image_witness :
    (∀ e ∈ [press 0 0, release 4 4], e.within (imread4 "photo.png").rows
      (imread4 "photo.png").cols) ∧
    (label_problems imread4 "photo.png" "out" [press 0 0, release 4 4]).conf.bounding_boxes ONE
      = [⟨0, 0, 4, 4⟩] ∧
    ∀ b,
      (∀ r ∈ (label_problems imread4 "photo.png" "out"
          [press 0 0, release 4 4]).conf.bounding_boxes b,
        0 ≤ r.x ∧ 0 ≤ r.y ∧ r.x + r.width ≤ (imread4 "photo.png").cols ∧
        r.y + r.height ≤ (imread4 "photo.png").rows) ∧
      ∃ mask, create_mask (imread4 "photo.png")
        ((label_problems imread4 "photo.png" "out"
          [press 0 0, release 4 4]).conf.bounding_boxes b) = some mask :=
  ⟨by decide, by decide,
   store_within_image imread4 "photo.png" "out" [press 0 0, release 4 4] (by decide)⟩

/-- C8 as stated fails: a drag from `(-2, -2)` to `(6, 6)` on a 4 × 4 image
stores the rectangle `{-2, -2, 8, 8}` unclamped (`x < 0`, `x + width > 4`), and
the fill of `create_mask` for it fails the range check. -/
theorem clamp_counterexample :
    (label_problems imread4 "photo.png" "out"
      [press (-2) (-2), release 6 6]).conf.bounding_boxes ONE = [⟨-2, -2, 8, 8⟩] ∧
    (imread4 "photo.png").rows = 4 ∧ (imread4 "photo.png").cols = 4 ∧
    create_mask (imread4 "photo.png")
      ((label_problems imread4 "photo.png" "out"
        [press (-2) (-2), release 6 6]).conf.bounding_boxes ONE) = none := by
  decide

/-! ## C10: the drag state -/

/-- C10, as the code has it. The pending origin survives a commit: after a
release that commits a rectangle the origin `(ox, oy)` is still pending, and a
further release at `(x2, y2)` with no press in between commits
`{ox, oy, x2 - ox, y2 - oy}` after the first rectangle when `x2 > ox` and
`y2 > oy`, and changes nothing otherwise.  When several presses occur without a
release in between, the most recent press alone determines the origin, and a
press at `(x0, y0)` followed by a release at `(x1, y1)` appends
`{x0, y0, x1 - x0, y1 - y0}` to the active brush when `x1 > x0` and `y1 > y0`
and leaves the store unchanged otherwise, whatever was pending before. -/
theorem drag_state_spec {α : Type} (conf : Config α) :
    (∀ x y x2 y2 : Int, 0 < x - conf.bounding_box.x → 0 < y - conf.bounding_box.y →
      (mouseHandler EVENT_LBUTTONUP x y conf).1.bounding_box.x = conf.bounding_box.x ∧
      (mouseHandler EVENT_LBUTTONUP x y conf).1.bounding_box.y = conf.bounding_box.y ∧
      (0 < x2 - conf.bounding_box.x ∧ 0 < y2 - conf.bounding_box.y →
        (mouseHandler EVENT_LBUTTONUP x2 y2
          (mouseHandler EVENT_LBUTTONUP x y conf).1).1.bounding_boxes conf.brush =
          conf.bounding_boxes conf.brush ++
            [⟨conf.bounding_box.x, conf.bounding_box.y,
              x - conf.bounding_box.x, y - conf.bounding_box.y⟩,
             ⟨conf.bounding_box.x, conf.bounding_box.y,
              x2 - conf.bounding_box.x, y2 - conf.bounding_box.y⟩]) ∧
      (x2 - conf.bounding_box.x ≤ 0 ∨ y2 - conf.bounding_box.y ≤ 0 →
        mouseHandler EVENT_LBUTTONUP x2 y2 (mouseHandler EVENT_LBUTTONUP x y conf).1 =
          ((mouseHandler EVENT_LBUTTONUP x y conf).1, []))) ∧
    (∀ a b x0 y0 : Int,
      mouseHandler EVENT_LBUTTONDOWN x0 y0 (mouseHandler EVENT_LBUTTONDOWN a b conf).1 =
        mouseHandler EVENT_LBUTTONDOWN x0 y0 conf) ∧
    (∀ x0 y0 x1 y1 : Int,
      (mouseHandler EVENT_LBUTTONUP x1 y1
        (mouseHandler EVENT_LBUTTONDOWN x0 y0 conf).1).1.bounding_boxes =
        if 0 < x1 - x0 ∧ 0 < y1 - y0 then
          Function.update conf.bounding_boxes conf.brush
            (conf.bounding_boxes conf.brush ++ [⟨x0, y0, x1 - x0, y1 - y0⟩])
        else
          conf.bounding_boxes) := by
  refine ⟨?_, ?_, ?_⟩
  · intro x y x2 y2 hw hh
    have e1 := mouseHandler_up_commit x y conf hw hh
    have bx : (mouseHandler EVENT_LBUTTONUP x y conf).1.bounding_box.x = conf.bounding_box.x := by
      rw [e1]
    have bY : (mouseHandler EVENT_LBUTTONUP x y conf).1.bounding_box.y = conf.bounding_box.y := by
      rw [e1]
    have bb : (mouseHandler EVENT_LBUTTONUP x y conf).1.brush = conf.brush := by
      rw [e1]
    have bs : (mouseHandler EVENT_LBUTTONUP x y conf).1.bounding_boxes conf.brush =
        conf.bounding_boxes conf.brush ++
          [⟨conf.bounding_box.x, conf.bounding_box.y,
            x - conf.bounding_box.x, y - conf.bounding_box.y⟩] := by
      rw [e1]; simp
    refine ⟨bx, bY, ?_, ?_⟩
    · rintro ⟨hw2, hh2⟩
      rw [mouseHandler_up_commit x2 y2 (mouseHandler EVENT_LBUTTONUP x y conf).1
        (by rw [bx]; exact hw2) (by rw [bY]; exact hh2)]
      simp only [bx, bY]
      rw [Function.update_apply, if_pos bb.symm, bb, bs, List.append_assoc,
        List.singleton_append]
    · intro hc
      exact mouseHandler_up_discard x2 y2 (mouseHandler EVENT_LBUTTONUP x y conf).1
        (by rw [bx, bY]; exact hc)
  · intro a b x0 y0
    rw [mouseHandler_down, mouseHandler_down, mouseHandler_down]
  · intro x0 y0 x1 y1
    rw [mouseHandler_down]
    dsimp only
    by_cases hc : 0 < x1 - x0 ∧ 0 < y1 - y0
    · rw [if_pos hc, mouseHandler_up_commit x1 y1 _ hc.1 hc.2]
    · rw [if_neg hc, mouseHandler_up_discard x1 y1 _ (by
        show x1 - x0 ≤ 0 ∨ y1 - y0 ≤ 0
        omega)]

/-- C10 at a concrete state with origin `(2, 2)` on brush `THREE`: two releases
in a row commit two rectangles from the same origin, and a press at `(0, 1)`
followed by a release at `(3, 2)` appends `{0, 1, 3, 1}`. -/
theorem drag_state_spec_witness :
    (mouseHandler EVENT_LBUTTONUP 4 4
      (mouseHandler EVENT_LBUTTONUP 3 3 photo_config).1).1.bounding_boxes THREE =
      [⟨2, 2, 2, 2⟩, ⟨2, 2, 1, 1⟩, ⟨2, 2, 2, 2⟩] ∧
    (mouseHandler EVENT_LBUTTONUP 3 2
      (mouseHandler EVENT_LBUTTONDOWN 0 1 photo_config).1).1.bounding_boxes THREE =
      [⟨2, 2, 2, 2⟩, ⟨0, 1, 3, 1⟩] := by
  refine ⟨?_, ?_⟩
  · exact ((drag_state_spec photo_config).1 3 3 4 4 (by decide) (by decide)).2.2.1 (by decide)
  · rw [(drag_state_spec photo_config).2.2 0 1 3 2]
    decide

/-- C10 as stated fails: after `press (0, 0)` and `release (1, 1)`, a further
release at `(2, 2)` with no press in between commits a second rectangle,
`{0, 0, 2, 2}`, from the origin that survived the first commit. -/
theorem drag_state_counterexample :
    (label_problems imread4 "photo.png" "out"
      [press 0 0, release 1 1]).conf.bounding_boxes ONE = [⟨0, 0, 1, 1⟩] ∧
    (label_problems imread4 "photo.png" "out"
      [press 0 0, release 1 1, release 2 2]).conf.bounding_boxes ONE =
      [⟨0, 0, 1, 1⟩, ⟨0, 0, 2, 2⟩] := by
  decide

end BoulderLabeler
